import Mathlib

/-!
Verification of the portfolio backend's core behavior: the entity store
(Skill, ProjectCategory, Project, Experience, ContactMessage, PortfolioSettings),
the query/projection layer (featured listings, paginated JSON APIs) and the
contact-intake write path, shallowly embedded from `core/models.py` and
`core/views.py`.

Stores are modelled as lists of rows; fallible writes return `Except`;
Django's `full_clean` (field validators plus the model's `clean`) is a
boolean predicate translated validator by validator.
-/

namespace Portfolio

/-- Python's `str.strip()`: drop whitespace from both ends
(modelled over the character list with `Char.isWhitespace`). -/
def pyStrip (s : String) : String :=
  ⟨((s.data.dropWhile Char.isWhitespace).reverse.dropWhile Char.isWhitespace).reverse⟩

/-- Python's `c in s` membership test for a single character. -/
def pyContains (s : String) (c : Char) : Bool :=
  s.data.contains c

/-- Outcome of a JSON view: HTTP status code, `success` flag, user-facing message. -/
structure JsonResp where
  status : Nat
  success : Bool
  message : String
deriving DecidableEq

/-- A `ContactMessage` row (`core/models.py`).  `created_at`/`updated_at`
timestamps are entity metadata and are not modelled. -/
structure ContactMessage where
  id : Nat
  name : String
  email : String
  subject : String
  message : String
  is_read : Bool
  replied_at : Option Nat
  admin_notes : String
deriving DecidableEq

/-- The parsed JSON body of a contact submission; `data.get(key, "")` makes
each field optional with default `""`. -/
structure ContactPayload where
  name : Option String
  email : Option String
  subject : Option String
  message : Option String
deriving DecidableEq

/-- Result of one `contact_form` request: the ContactMessage table, the log of
dispatched notification emails (subjects), and the HTTP response. -/
structure ContactResult where
  db : List ContactMessage
  sent : List String
  resp : JsonResp
deriving DecidableEq

/-- The validation performed by `contact_form` on the already-trimmed fields:
all four non-empty, and the email contains both an `@` and a `.`. -/
def contactValidate (name email subject message : String) : Bool :=
  (name != "" && email != "" && subject != "" && message != "") &&
  (pyContains email '@' && pyContains email '.')

/-- `contact_form` (`core/views.py`).  `body = none` models a JSON parse
failure (`json.JSONDecodeError`).  `emailOk` models whether the outbound
`send_mail` call succeeds; a failure is caught, logged, and does not alter
the response.  New rows receive the next surrogate id. -/
def contact_form (db : List ContactMessage) (sent : List String)
    (body : Option ContactPayload) (emailOk : Bool) : ContactResult :=
  match body with
  | none =>
      { db := db, sent := sent,
        resp := { status := 400, success := false,
                  message := "Datos del formulario inválidos." } }
  | some data =>
      let name := pyStrip (data.name.getD "")
      let email := pyStrip (data.email.getD "")
      let subject := pyStrip (data.subject.getD "")
      let message_text := pyStrip (data.message.getD "")
      if !(name != "" && email != "" && subject != "" && message_text != "") then
        { db := db, sent := sent,
          resp := { status := 400, success := false,
                    message := "Todos los campos son obligatorios." } }
      else if !(pyContains email '@' && pyContains email '.') then
        { db := db, sent := sent,
          resp := { status := 400, success := false,
                    message := "El email proporcionado no es válido." } }
      else
        let contact_message : ContactMessage :=
          { id := db.length + 1, name := name, email := email, subject := subject,
            message := message_text, is_read := false, replied_at := none,
            admin_notes := "" }
        let db2 := db ++ [contact_message]
        let sent2 :=
          if emailOk then sent ++ ["Nuevo mensaje del portfolio: " ++ subject] else sent
        { db := db2, sent := sent2,
          resp := { status := 200, success := true,
                    message := "¡Mensaje enviado correctamente! Te contactaré pronto." } }

/-- A `Skill` row (`core/models.py`).  `years_experience` is a nullable
`PositiveIntegerField` (modelled as `Option Int` so that the non-negativity
validator is meaningful); timestamps are not modelled. -/
structure Skill where
  id : Nat
  name : String
  icon_url : String
  years_experience : Option Int
  category : String
  proficiency_level : Int
  is_featured : Bool
  display_order : Nat
deriving DecidableEq

/-- The field-level checks `full_clean` runs on a Skill:
`MinValueValidator(1)`/`MaxValueValidator(4)` on `proficiency_level`,
`PositiveIntegerField` non-negativity on `years_experience`, and membership
in the declared choices for `category` and `proficiency_level`.
(URL well-formedness of `icon_url` is not claim-relevant and is elided.) -/
def Skill.fields_ok (s : Skill) : Bool :=
  decide (1 ≤ s.proficiency_level) && decide (s.proficiency_level ≤ 4)
  && (match s.years_experience with
      | some y => decide (0 ≤ y)
      | none => true)
  && (["language", "framework", "database", "tool", "cloud"].contains s.category)
  && (([1, 2, 3, 4] : List Int).contains s.proficiency_level)

/-- `Skill.clean`: raises when `years_experience` is truthy (non-null and
non-zero, per Python truthiness) and greater than 50. -/
def Skill.clean_ok (s : Skill) : Bool :=
  match s.years_experience with
  | some y => !(y != 0 && decide (50 < y))
  | none => true

/-- `full_clean` on a Skill: field validators plus the model's `clean`. -/
def Skill.full_clean (s : Skill) : Bool :=
  s.fields_ok && s.clean_ok

/-- `Skill.save` overrides save to run `full_clean` first; `validate_unique`
on the unique `name` column is checked against the store.  Success appends
the row; a violation fails with a validation error and leaves the store
unchanged. -/
def skillCreate (db : List Skill) (s : Skill) : Except String (List Skill) :=
  if s.full_clean && db.all (fun t => t.name != s.name) then .ok (db ++ [s])
  else .error "ValidationError"

/-- Ordering used by skill queries: `order_by('display_order', 'name')`. -/
def skillLE (a b : Skill) : Prop :=
  a.display_order < b.display_order
  ∨ (a.display_order = b.display_order ∧ a.name ≤ b.name)

instance : DecidableRel skillLE := fun a b => by
  unfold skillLE
  exact inferInstance

instance : IsTotal Skill skillLE := ⟨by
  intro a b
  unfold skillLE
  rcases Nat.lt_trichotomy a.display_order b.display_order with h | h | h
  · exact Or.inl (Or.inl h)
  · rcases le_total a.name b.name with hn | hn
    · exact Or.inl (Or.inr ⟨h, hn⟩)
    · exact Or.inr (Or.inr ⟨h.symm, hn⟩)
  · exact Or.inr (Or.inl h)⟩

instance : IsTrans Skill skillLE := ⟨by
  intro a b c hab hbc
  unfold skillLE at hab hbc ⊢
  rcases hab with h1 | ⟨e1, n1⟩ <;> rcases hbc with h2 | ⟨e2, n2⟩
  · exact Or.inl (h1.trans h2)
  · exact Or.inl (by omega)
  · exact Or.inl (by omega)
  · exact Or.inr ⟨e1.trans e2, le_trans n1 n2⟩⟩

/-- `Skill.get_featured_skills`:
`filter(is_featured=True).order_by('display_order', 'name')`. -/
def Skill.get_featured_skills (db : List Skill) : List Skill :=
  List.insertionSort skillLE (db.filter (fun s => s.is_featured))

/-- **C1.** After a ContactMessage has been successfully persisted, a failure
of the notification email dispatch does not change the caller's outcome: the
persisted message remains stored and the caller still receives a success
response, for every submission that passed validation. -/
theorem contact_email_failure_preserves_success
    (db : List ContactMessage) (sent : List String) (d : ContactPayload)
    (h : contactValidate (pyStrip (d.name.getD "")) (pyStrip (d.email.getD ""))
        (pyStrip (d.subject.getD "")) (pyStrip (d.message.getD "")) = true) :
    (contact_form db sent (some d) false).db = (contact_form db sent (some d) true).db
    ∧ (contact_form db sent (some d) false).resp = (contact_form db sent (some d) true).resp
    ∧ (∃ m, (contact_form db sent (some d) false).db = db ++ [m])
    ∧ (contact_form db sent (some d) false).resp.success = true
    ∧ (contact_form db sent (some d) false).resp.status = 200 := by
  unfold contactValidate at h
  rw [Bool.and_eq_true] at h
  obtain ⟨hA, hB⟩ := h
  simp [contact_form, hA, hB]

theorem contact_email_failure_preserves_success_witness :
    (contact_form [] [] (some ⟨some "A", some "a@b.com", some "S", some "M"⟩) false).resp.success
      = true :=
  (contact_email_failure_preserves_success [] []
    ⟨some "A", some "a@b.com", some "S", some "M"⟩ (by decide)).2.2.2.1

/-- **C2.** Contact intake rejects a submission and persists nothing whenever
any of the four fields is empty after trimming, or the email does not contain
both an `@` and a `.`: the table is unchanged and the response reports failure
with HTTP 400. -/
theorem contact_validation_rejects
    (db : List ContactMessage) (sent : List String) (d : ContactPayload) (emailOk : Bool)
    (h : pyStrip (d.name.getD "") = "" ∨ pyStrip (d.email.getD "") = ""
       ∨ pyStrip (d.subject.getD "") = "" ∨ pyStrip (d.message.getD "") = ""
       ∨ ¬(pyContains (pyStrip (d.email.getD "")) '@' = true
            ∧ pyContains (pyStrip (d.email.getD "")) '.' = true)) :
    (contact_form db sent (some d) emailOk).db = db
    ∧ (contact_form db sent (some d) emailOk).resp.success = false
    ∧ (contact_form db sent (some d) emailOk).resp.status = 400 := by
  by_cases hA : (pyStrip (d.name.getD "") != "" && pyStrip (d.email.getD "") != ""
      && pyStrip (d.subject.getD "") != "" && pyStrip (d.message.getD "") != "") = true
  · have hB : ¬(pyContains (pyStrip (d.email.getD "")) '@'
        && pyContains (pyStrip (d.email.getD "")) '.') = true := by
      simp only [Bool.and_eq_true, bne_iff_ne, ne_eq] at hA
      rcases h with h | h | h | h | h
      · exact absurd h hA.1.1.1
      · exact absurd h hA.1.1.2
      · exact absurd h hA.1.2
      · exact absurd h hA.2
      · simpa [Bool.and_eq_true] using h
    simp [contact_form, hA, hB]
  · simp [contact_form, hA]

theorem contact_validation_rejects_witness :
    (contact_form [] [] (some ⟨some "  ", some "a@b.com", some "S", some "M"⟩) true).db
      = ([] : List ContactMessage) :=
  (contact_validation_rejects [] [] ⟨some "  ", some "a@b.com", some "S", some "M"⟩ true
    (Or.inl (by decide))).1

/-- **C10.** A submission is accepted iff its trimmed fields pass validation,
and an accepted submission is stored in trimmed form: the persisted row's
name, email, subject and message are the submitted strings with surrounding
whitespace removed. -/
theorem contact_stores_trimmed
    (db : List ContactMessage) (sent : List String) (d : ContactPayload) (emailOk : Bool) :
    ((contact_form db sent (some d) emailOk).resp.success = true ↔
      contactValidate (pyStrip (d.name.getD "")) (pyStrip (d.email.getD ""))
        (pyStrip (d.subject.getD "")) (pyStrip (d.message.getD "")) = true)
    ∧ ((contact_form db sent (some d) emailOk).resp.success = true →
        (contact_form db sent (some d) emailOk).db =
          db ++ [{ id := db.length + 1,
                   name := pyStrip (d.name.getD ""), email := pyStrip (d.email.getD ""),
                   subject := pyStrip (d.subject.getD ""),
                   message := pyStrip (d.message.getD ""),
                   is_read := false, replied_at := none, admin_notes := "" }]) := by
  by_cases hA : (pyStrip (d.name.getD "") != "" && pyStrip (d.email.getD "") != ""
      && pyStrip (d.subject.getD "") != "" && pyStrip (d.message.getD "") != "") = true
  · by_cases hB : (pyContains (pyStrip (d.email.getD "")) '@'
        && pyContains (pyStrip (d.email.getD "")) '.') = true
    · simp [contact_form, contactValidate, hA, hB]
    · simp [contact_form, contactValidate, hA, hB]
  · simp [contact_form, contactValidate, hA]

theorem contact_stores_trimmed_witness :
    (contact_form [] [] (some ⟨some " A ", some " a@b.com ", some " S ", some " M "⟩) true).db
      = [{ id := 1, name := "A", email := "a@b.com", subject := "S", message := "M",
           is_read := false, replied_at := none, admin_notes := "" }] := by
  have h := (contact_stores_trimmed [] []
    ⟨some " A ", some " a@b.com ", some " S ", some " M "⟩ true).2 (by decide)
  simpa using h

/-- **C6.** Every Skill accepted by the store satisfies
`1 ≤ proficiency_level ≤ 4` and, when set, `0 ≤ years_experience ≤ 50`
(so all persisted rows do, given the prior rows did); creating a Skill with
`proficiency_level` outside `1..4` or with `years_experience = 51` fails
with a validation error. -/
theorem skill_range_invariants :
    (∀ (db db2 : List Skill) (s : Skill), skillCreate db s = .ok db2 →
      1 ≤ s.proficiency_level ∧ s.proficiency_level ≤ 4
        ∧ ∀ y, s.years_experience = some y → 0 ≤ y ∧ y ≤ 50)
    ∧ (∀ (db db2 : List Skill) (s : Skill),
        (∀ t ∈ db, 1 ≤ t.proficiency_level ∧ t.proficiency_level ≤ 4
          ∧ ∀ y, t.years_experience = some y → 0 ≤ y ∧ y ≤ 50) →
        skillCreate db s = .ok db2 →
        ∀ t ∈ db2, 1 ≤ t.proficiency_level ∧ t.proficiency_level ≤ 4
          ∧ ∀ y, t.years_experience = some y → 0 ≤ y ∧ y ≤ 50)
    ∧ (∀ (db : List Skill) (s : Skill),
        (s.proficiency_level < 1 ∨ 4 < s.proficiency_level
          ∨ s.years_experience = some 51) →
        skillCreate db s = .error "ValidationError") := by
  have key : ∀ (db db2 : List Skill) (s : Skill), skillCreate db s = .ok db2 →
      1 ≤ s.proficiency_level ∧ s.proficiency_level ≤ 4
        ∧ ∀ y, s.years_experience = some y → 0 ≤ y ∧ y ≤ 50 := by
    intro db db2 s h
    unfold skillCreate at h
    split at h
    case isFalse => exact absurd h (by simp)
    case isTrue hc =>
      rw [Bool.and_eq_true] at hc
      obtain ⟨hfc, -⟩ := hc
      unfold Skill.full_clean at hfc
      rw [Bool.and_eq_true] at hfc
      obtain ⟨hfields, hclean⟩ := hfc
      unfold Skill.fields_ok at hfields
      unfold Skill.clean_ok at hclean
      simp only [Bool.and_eq_true, decide_eq_true_eq] at hfields
      refine ⟨hfields.1.1.1.1, hfields.1.1.1.2, ?_⟩
      intro y hy
      rw [hy] at hfields hclean
      simp only [decide_eq_true_eq] at hfields
      have h0 : 0 ≤ y := hfields.1.1.2
      simp at hclean
      omega
  refine ⟨key, ?_, ?_⟩
  · intro db db2 s hdb h t ht
    have hs := key db db2 s h
    unfold skillCreate at h
    split at h
    case isFalse => exact absurd h (by simp)
    case isTrue =>
      have : db2 = db ++ [s] := by
        simpa using h.symm
      subst this
      rcases List.mem_append.mp ht with hmem | hmem
      · exact hdb t hmem
      · simp only [List.mem_singleton] at hmem
        subst hmem
        exact hs
  · intro db s h
    have hfc : s.full_clean = false := by
      unfold Skill.full_clean Skill.fields_ok Skill.clean_ok
      rcases h with h | h | h
      · have : decide (1 ≤ s.proficiency_level) = false := by
          simp only [decide_eq_false_iff_not]
          omega
        simp [this]
      · have : decide (s.proficiency_level ≤ 4) = false := by
          simp only [decide_eq_false_iff_not]
          omega
        simp [this]
      · rw [h]
        simp
    unfold skillCreate
    rw [hfc]
    simp

theorem skill_range_invariants_witness :
    ((1 : Int) ≤ 3 ∧ (3 : Int) ≤ 4
      ∧ ∀ y : Int, (some 2 : Option Int) = some y → 0 ≤ y ∧ y ≤ 50)
    ∧ skillCreate []
        { id := 2, name := "Bad", icon_url := "https://x", years_experience := none,
          category := "tool", proficiency_level := 0, is_featured := true,
          display_order := 0 } = .error "ValidationError" := by
  constructor
  · exact skill_range_invariants.1 []
      [{ id := 1, name := "Python", icon_url := "https://x", years_experience := some 2,
         category := "language", proficiency_level := 3, is_featured := true,
         display_order := 0 }]
      { id := 1, name := "Python", icon_url := "https://x", years_experience := some 2,
        category := "language", proficiency_level := 3, is_featured := true,
        display_order := 0 } rfl
  · exact skill_range_invariants.2.2 []
      { id := 2, name := "Bad", icon_url := "https://x", years_experience := none,
        category := "tool", proficiency_level := 0, is_featured := true,
        display_order := 0 } (Or.inl (by decide))

/-- **C7.** `get_featured_skills` returns exactly the Skill rows with
`is_featured = true`, ordered by `display_order` ascending with ties broken
by `name` ascending. -/
theorem featured_skills_query_spec (db : List Skill) :
    (∀ s, s ∈ Skill.get_featured_skills db ↔ s ∈ db ∧ s.is_featured = true)
    ∧ List.Sorted skillLE (Skill.get_featured_skills db) := by
  constructor
  · intro s
    unfold Skill.get_featured_skills
    rw [List.mem_insertionSort, List.mem_filter]
  · exact List.sorted_insertionSort skillLE _

/-- A `PortfolioSettings` row (`core/models.py`).  `pk` is the surrogate
primary key (`none` on an unsaved instance); `updated_at` is not modelled. -/
structure PortfolioSettings where
  pk : Option Nat
  site_title : String
  tagline : String
  about_me : String
  email : String
  github_username : String
  linkedin_url : String
  cv_file_path : String
deriving DecidableEq

/-- An unsaved `PortfolioSettings()` instance with the field defaults
declared in the model. -/
def defaultPortfolioSettings : PortfolioSettings :=
  { pk := none,
    site_title := "Argenis Manzanares",
    tagline := "Desarrollador Backend en Python",
    about_me := "Soy programador web backend con experiencia en Python, Django, FastAPI, Flask, SQL y Docker. Estoy enfocado en crear APIs y sistemas escalables.",
    email := "argenis010@gmail.com",
    github_username := "Kallheset",
    linkedin_url := "https://www.linkedin.com/in/argenis-manzanares-108b4a349/",
    cv_file_path := "cv/Argenis_Manzanares_CV.pdf" }

/-- `PortfolioSettings.save`: sets `self.pk = 1` before delegating to the
framework save, which updates the row with that key if present and inserts
it otherwise.  Returns the new table and the saved instance. -/
def settingsSave (db : List PortfolioSettings) (inst : PortfolioSettings) :
    List PortfolioSettings × PortfolioSettings :=
  if db.any (fun r => r.pk == some 1) then
    (db.map (fun r => if r.pk == some 1 then { inst with pk := some 1 } else r),
     { inst with pk := some 1 })
  else
    (db ++ [{ inst with pk := some 1 }], { inst with pk := some 1 })

/-- `PortfolioSettings.get_settings`: `get_or_create(pk=1)` — return the row
with key 1 if it exists, otherwise create one with the field defaults (the
creation goes through `save`, which pins the key to 1). -/
def PortfolioSettings.get_settings (db : List PortfolioSettings) :
    List PortfolioSettings × PortfolioSettings :=
  match db.find? (fun r => r.pk == some 1) with
  | some r => (db, r)
  | none => settingsSave db defaultPortfolioSettings

/-- **C5.** The Settings record is a singleton: two get-or-create calls
return records with identical identifiers (both key 1), and after any such
calls at most one Settings row exists (from any state reachable by the
settings operations, i.e. at most one row, all keyed 1). -/
theorem settings_get_or_create_singleton (db : List PortfolioSettings)
    (hpk : ∀ r ∈ db, r.pk = some 1) (hlen : db.length ≤ 1) :
    (PortfolioSettings.get_settings (PortfolioSettings.get_settings db).1).2.pk
      = (PortfolioSettings.get_settings db).2.pk
    ∧ (PortfolioSettings.get_settings db).2.pk = some 1
    ∧ (PortfolioSettings.get_settings (PortfolioSettings.get_settings db).1).1.length ≤ 1
    ∧ ∀ r ∈ (PortfolioSettings.get_settings (PortfolioSettings.get_settings db).1).1,
        r.pk = some 1 := by
  cases hfind : db.find? (fun r => r.pk == some 1) with
  | some r =>
    have hrpk : r.pk = some 1 := by
      have := List.find?_some hfind
      simpa using this
    unfold PortfolioSettings.get_settings
    rw [hfind]
    simp only []
    rw [hfind]
    exact ⟨rfl, hrpk, hlen, hpk⟩
  | none =>
    have hdb : db = [] := by
      cases db with
      | nil => rfl
      | cons a t =>
        exfalso
        have ha : (fun r => r.pk == some 1) a = true := by
          simp [hpk a (by simp)]
        have hfa : List.find? (fun r => r.pk == some 1) (a :: t) = some a :=
          List.find?_cons_of_pos t ha
        rw [hfa] at hfind
        exact Option.noConfusion hfind
    subst hdb
    decide

theorem settings_get_or_create_singleton_witness :
    (PortfolioSettings.get_settings
        (PortfolioSettings.get_settings ([] : List PortfolioSettings)).1).2.pk
      = (PortfolioSettings.get_settings ([] : List PortfolioSettings)).2.pk :=
  (settings_get_or_create_singleton [] (by simp) (by simp)).1

/-- **C9.** Every save of a PortfolioSettings instance writes to primary
key 1 regardless of the key the instance carried: the saved instance has
key 1, every row the save adds or rewrites has key 1 (any other row is an
untouched pre-existing row), and the at-most-one-row invariant is preserved
by save itself. -/
theorem settings_save_forces_pk_one (db : List PortfolioSettings)
    (inst : PortfolioSettings) :
    (settingsSave db inst).2.pk = some 1
    ∧ (∀ r ∈ (settingsSave db inst).1, r.pk = some 1 ∨ r ∈ db)
    ∧ ((∀ r ∈ db, r.pk = some 1) → ∀ r ∈ (settingsSave db inst).1, r.pk = some 1)
    ∧ ((∀ r ∈ db, r.pk = some 1) → db.length ≤ 1 →
        (settingsSave db inst).1.length ≤ 1) := by
  unfold settingsSave
  by_cases hany : db.any (fun r => r.pk == some 1) = true
  · rw [if_pos hany]
    refine ⟨rfl, ?_, ?_, ?_⟩
    · intro r hr
      rw [List.mem_map] at hr
      obtain ⟨x, hx, hfx⟩ := hr
      by_cases hxpk : (x.pk == some 1) = true
      · left
        rw [← hfx, if_pos hxpk]
      · right
        rw [← hfx, if_neg hxpk]
        exact hx
    · intro hall r hr
      rw [List.mem_map] at hr
      obtain ⟨x, hx, hfx⟩ := hr
      by_cases hxpk : (x.pk == some 1) = true
      · rw [← hfx, if_pos hxpk]
      · rw [← hfx, if_neg hxpk]
        exact hall x hx
    · intro hall hlen
      simpa using hlen
  · rw [if_neg hany]
    refine ⟨rfl, ?_, ?_, ?_⟩
    · intro r hr
      rcases List.mem_append.mp hr with h | h
      · right; exact h
      · left
        simp only [List.mem_singleton] at h
        rw [h]
    · intro hall r hr
      rcases List.mem_append.mp hr with h | h
      · exact hall r h
      · simp only [List.mem_singleton] at h
        rw [h]
    · intro hall hlen
      have hdb : db = [] := by
        cases db with
        | nil => rfl
        | cons a t =>
          exfalso
          apply hany
          have ha := hall a (by simp)
          simp [List.any_cons, ha]
      subst hdb
      simp

theorem settings_save_forces_pk_one_witness :
    (settingsSave [] { defaultPortfolioSettings with pk := some 5 }).1.length ≤ 1 :=
  (settings_save_forces_pk_one [] { defaultPortfolioSettings with pk := some 5 }).2.2.2
    (by simp) (by simp)

/-- A `ProjectCategory` row (`core/models.py`). -/
structure ProjectCategory where
  id : Nat
  name : String
  description : String
  color : String
deriving DecidableEq

/-- A `Project` row (`core/models.py`).  `category` is the nullable foreign
key (`on_delete=SET_NULL`) holding a ProjectCategory id; `technologies` is
the set of associated Skill ids; dates are day numbers; `created_at` is kept
because the query layer orders by it. -/
structure Project where
  id : Nat
  title : String
  description : String
  detailed_description : String
  github_url : Option String
  demo_url : Option String
  featured_image : Option String
  category : Option Nat
  technologies : List Nat
  status : String
  is_featured : Bool
  display_order : Nat
  start_date : Option Int
  end_date : Option Int
  created_at : Int
deriving DecidableEq

/-- `Project.clean`: raises when both dates are set and
`end_date < start_date`. -/
def Project.clean_ok (p : Project) : Bool :=
  match p.end_date, p.start_date with
  | some e, some s => !(decide (e < s))
  | _, _ => true

/-- `full_clean` on a Project: choices validation on `status` plus the
model's `clean` (the `valid_project_dates` check constraint repeats the
same date condition; URL field validation is not claim-relevant and is
elided). -/
def Project.full_clean (p : Project) : Bool :=
  ["active", "completed", "archived", "in_progress"].contains p.status
  && p.clean_ok

/-- The validated write path for a Project (`Project.save` runs `full_clean`
before persisting): on success the row is inserted, or replaces the row
with the same id; a violation fails and the prior state is unchanged. -/
def projectWrite (db : List Project) (p : Project) : Except String (List Project) :=
  if p.full_clean then
    .ok (if db.any (fun q => q.id == p.id) then
          db.map (fun q => if q.id == p.id then p else q)
        else db ++ [p])
  else .error "ValidationError"

/-- Applying a Project write to the store: a validation failure leaves the
store unchanged. -/
def projectApply (db : List Project) (p : Project) : List Project :=
  match projectWrite db p with
  | .ok db2 => db2
  | .error _ => db

/-- An `Experience` row (`core/models.py`).  `start_date` is required;
`end_date` is nullable. -/
structure Experience where
  id : Nat
  title : String
  company_or_institution : String
  location : String
  description : String
  experience_type : String
  start_date : Int
  end_date : Option Int
  is_current : Bool
  technologies : List Nat
  is_featured : Bool
  display_order : Nat
deriving DecidableEq

/-- `Experience.clean`: raises when `end_date < start_date` (both set;
`start_date` is always set) or when `is_current` is set together with an
`end_date`. -/
def Experience.clean_ok (x : Experience) : Bool :=
  (match x.end_date with
   | some e => !(decide (e < x.start_date))
   | none => true)
  && !(x.is_current && x.end_date.isSome)

/-- `full_clean` on an Experience: choices validation on `experience_type`
plus the model's `clean`. -/
def Experience.full_clean (x : Experience) : Bool :=
  ["work", "education", "certification", "volunteer"].contains x.experience_type
  && x.clean_ok

/-- The validated write path for an Experience: its create/update operations
(admin forms, exercised in `tests.py` as `full_clean`) validate with
`full_clean` before persisting. -/
def experienceWrite (db : List Experience) (x : Experience) :
    Except String (List Experience) :=
  if x.full_clean then
    .ok (if db.any (fun q => q.id == x.id) then
          db.map (fun q => if q.id == x.id then x else q)
        else db ++ [x])
  else .error "ValidationError"

/-- Applying an Experience write to the store: a validation failure leaves
the store unchanged. -/
def experienceApply (db : List Experience) (x : Experience) : List Experience :=
  match experienceWrite db x with
  | .ok db2 => db2
  | .error _ => db

/-- `SET_NULL` deletion of a ProjectCategory: the category row disappears
and every Project referencing it keeps existing with its category cleared;
other Projects are untouched. -/
def deleteProjectCategory (cats : List ProjectCategory) (db : List Project)
    (cid : Nat) : List ProjectCategory × List Project :=
  (cats.filter (fun c => !(c.id == cid)),
   db.map (fun p => if p.category == some cid then { p with category := none } else p))

theorem projectWrite_ok_mem {db db2 : List Project} {p q : Project}
    (h : projectWrite db p = .ok db2) (hq : q ∈ db2) : q ∈ db ∨ q = p := by
  unfold projectWrite at h
  split at h
  case isFalse => exact absurd h (by simp)
  case isTrue =>
    have hdb2 : db2 = (if db.any (fun r => r.id == p.id) then
        db.map (fun r => if r.id == p.id then p else r) else db ++ [p]) := by
      simpa using h.symm
    subst hdb2
    split at hq
    · rw [List.mem_map] at hq
      obtain ⟨x, hx, hfx⟩ := hq
      by_cases hid : (x.id == p.id) = true
      · right
        rw [← hfx, if_pos hid]
      · left
        rw [← hfx, if_neg hid]
        exact hx
    · rcases List.mem_append.mp hq with h1 | h1
      · left; exact h1
      · right; simpa using h1

theorem projectWrite_ok_clean {db db2 : List Project} {p : Project}
    (h : projectWrite db p = .ok db2) : p.clean_ok = true := by
  unfold projectWrite at h
  split at h
  case isFalse => exact absurd h (by simp)
  case isTrue hfc =>
    unfold Project.full_clean at hfc
    rw [Bool.and_eq_true] at hfc
    exact hfc.2

theorem experienceWrite_ok_mem {db db2 : List Experience} {x q : Experience}
    (h : experienceWrite db x = .ok db2) (hq : q ∈ db2) : q ∈ db ∨ q = x := by
  unfold experienceWrite at h
  split at h
  case isFalse => exact absurd h (by simp)
  case isTrue =>
    have hdb2 : db2 = (if db.any (fun r => r.id == x.id) then
        db.map (fun r => if r.id == x.id then x else r) else db ++ [x]) := by
      simpa using h.symm
    subst hdb2
    split at hq
    · rw [List.mem_map] at hq
      obtain ⟨y, hy, hfy⟩ := hq
      by_cases hid : (y.id == x.id) = true
      · right
        rw [← hfy, if_pos hid]
      · left
        rw [← hfy, if_neg hid]
        exact hy
    · rcases List.mem_append.mp hq with h1 | h1
      · left; exact h1
      · right; simpa using h1

theorem experienceWrite_ok_clean {db db2 : List Experience} {x : Experience}
    (h : experienceWrite db x = .ok db2) : x.clean_ok = true := by
  unfold experienceWrite at h
  split at h
  case isFalse => exact absurd h (by simp)
  case isTrue hfc =>
    unfold Experience.full_clean at hfc
    rw [Bool.and_eq_true] at hfc
    exact hfc.2

/-- **C3.** Every Project and Experience accepted by a validated write has
`start_date ≤ end_date` whenever both dates are set (so all persisted rows
do, given the prior rows did); a write with `end_date < start_date` fails
with a validation error and leaves the prior state unchanged. -/
theorem project_experience_date_ordering :
    (∀ (db db2 : List Project) (p : Project),
      (∀ q ∈ db, ∀ s e : Int, q.start_date = some s → q.end_date = some e → s ≤ e) →
      projectWrite db p = .ok db2 →
      ∀ q ∈ db2, ∀ s e : Int, q.start_date = some s → q.end_date = some e → s ≤ e)
    ∧ (∀ (db : List Project) (p : Project) (s e : Int),
        p.start_date = some s → p.end_date = some e → e < s →
        projectWrite db p = .error "ValidationError" ∧ projectApply db p = db)
    ∧ (∀ (db db2 : List Experience) (x : Experience),
      (∀ q ∈ db, ∀ e : Int, q.end_date = some e → q.start_date ≤ e) →
      experienceWrite db x = .ok db2 →
      ∀ q ∈ db2, ∀ e : Int, q.end_date = some e → q.start_date ≤ e)
    ∧ (∀ (db : List Experience) (x : Experience) (e : Int),
        x.end_date = some e → e < x.start_date →
        experienceWrite db x = .error "ValidationError" ∧ experienceApply db x = db) := by
  refine ⟨?_, ?_, ?_, ?_⟩
  · intro db db2 p hdb h q hq s e hs he
    rcases projectWrite_ok_mem h hq with hmem | hmem
    · exact hdb q hmem s e hs he
    · subst hmem
      have hclean := projectWrite_ok_clean h
      simp only [Project.clean_ok, hs, he] at hclean
      simp at hclean
      omega
  · intro db p s e hs he hlt
    have hclean : p.clean_ok = false := by
      simp [Project.clean_ok, hs, he, hlt]
    have hfc : p.full_clean = false := by
      simp [Project.full_clean, hclean]
    constructor
    · simp [projectWrite, hfc]
    · simp [projectApply, projectWrite, hfc]
  · intro db db2 x hdb h q hq e he
    rcases experienceWrite_ok_mem h hq with hmem | hmem
    · exact hdb q hmem e he
    · subst hmem
      have hclean := experienceWrite_ok_clean h
      simp only [Experience.clean_ok, he, Bool.and_eq_true] at hclean
      have := hclean.1
      simp at this
      omega
  · intro db x e he hlt
    have hclean : x.clean_ok = false := by
      simp [Experience.clean_ok, he, hlt]
    have hfc : x.full_clean = false := by
      simp [Experience.full_clean, hclean]
    constructor
    · simp [experienceWrite, hfc]
    · simp [experienceApply, experienceWrite, hfc]

theorem project_experience_date_ordering_witness :
    projectWrite []
      { id := 1, title := "T", description := "D", detailed_description := "",
        github_url := none, demo_url := none, featured_image := none,
        category := none, technologies := [], status := "completed",
        is_featured := true, display_order := 0,
        start_date := some 100, end_date := some 50, created_at := 0 }
      = .error "ValidationError"
    ∧ experienceWrite []
      { id := 1, title := "T", company_or_institution := "C", location := "",
        description := "D", experience_type := "work", start_date := 100,
        end_date := some 50, is_current := false, technologies := [],
        is_featured := true, display_order := 0 }
      = .error "ValidationError" := by
  constructor
  · exact (project_experience_date_ordering.2.1 []
      { id := 1, title := "T", description := "D", detailed_description := "",
        github_url := none, demo_url := none, featured_image := none,
        category := none, technologies := [], status := "completed",
        is_featured := true, display_order := 0,
        start_date := some 100, end_date := some 50, created_at := 0 }
      100 50 rfl rfl (by decide)).1
  · exact (project_experience_date_ordering.2.2.2 []
      { id := 1, title := "T", company_or_institution := "C", location := "",
        description := "D", experience_type := "work", start_date := 100,
        end_date := some 50, is_current := false, technologies := [],
        is_featured := true, display_order := 0 }
      50 rfl (by decide)).1

/-- **C8.** Deleting a ProjectCategory does not delete the Projects that
reference it: the project table keeps its length, every row keeps every
other field unchanged, and a row's category reference becomes absent exactly
when it pointed at the deleted category. -/
theorem category_delete_sets_null
    (cats : List ProjectCategory) (db : List Project) (cid : Nat)
    (i : Nat) (h : i < db.length) :
    (deleteProjectCategory cats db cid).2.length = db.length
    ∧ ∀ hh : i < (deleteProjectCategory cats db cid).2.length,
        ((deleteProjectCategory cats db cid).2.get ⟨i, hh⟩).category
            = (if (db.get ⟨i, h⟩).category = some cid then none
               else (db.get ⟨i, h⟩).category)
        ∧ ((deleteProjectCategory cats db cid).2.get ⟨i, hh⟩).id = (db.get ⟨i, h⟩).id
        ∧ ((deleteProjectCategory cats db cid).2.get ⟨i, hh⟩).title
            = (db.get ⟨i, h⟩).title
        ∧ ((deleteProjectCategory cats db cid).2.get ⟨i, hh⟩).description
            = (db.get ⟨i, h⟩).description
        ∧ ((deleteProjectCategory cats db cid).2.get ⟨i, hh⟩).detailed_description
            = (db.get ⟨i, h⟩).detailed_description
        ∧ ((deleteProjectCategory cats db cid).2.get ⟨i, hh⟩).github_url
            = (db.get ⟨i, h⟩).github_url
        ∧ ((deleteProjectCategory cats db cid).2.get ⟨i, hh⟩).demo_url
            = (db.get ⟨i, h⟩).demo_url
        ∧ ((deleteProjectCategory cats db cid).2.get ⟨i, hh⟩).featured_image
            = (db.get ⟨i, h⟩).featured_image
        ∧ ((deleteProjectCategory cats db cid).2.get ⟨i, hh⟩).technologies
            = (db.get ⟨i, h⟩).technologies
        ∧ ((deleteProjectCategory cats db cid).2.get ⟨i, hh⟩).status
            = (db.get ⟨i, h⟩).status
        ∧ ((deleteProjectCategory cats db cid).2.get ⟨i, hh⟩).is_featured
            = (db.get ⟨i, h⟩).is_featured
        ∧ ((deleteProjectCategory cats db cid).2.get ⟨i, hh⟩).display_order
            = (db.get ⟨i, h⟩).display_order
        ∧ ((deleteProjectCategory cats db cid).2.get ⟨i, hh⟩).start_date
            = (db.get ⟨i, h⟩).start_date
        ∧ ((deleteProjectCategory cats db cid).2.get ⟨i, hh⟩).end_date
            = (db.get ⟨i, h⟩).end_date
        ∧ ((deleteProjectCategory cats db cid).2.get ⟨i, hh⟩).created_at
            = (db.get ⟨i, h⟩).created_at := by
  constructor
  · simp [deleteProjectCategory]
  · intro hh
    have hget : (deleteProjectCategory cats db cid).2.get ⟨i, hh⟩
        = (if (db.get ⟨i, h⟩).category == some cid
           then { db.get ⟨i, h⟩ with category := none } else db.get ⟨i, h⟩) := by
      simp [deleteProjectCategory]
    rw [hget]
    by_cases hc : ((db.get ⟨i, h⟩).category == some cid) = true
    · have hc2 : (db.get ⟨i, h⟩).category = some cid := by simpa using hc
      rw [if_pos hc, if_pos hc2]
      exact ⟨rfl, rfl, rfl, rfl, rfl, rfl, rfl, rfl, rfl, rfl, rfl, rfl, rfl, rfl, rfl⟩
    · have hc2 : ¬((db.get ⟨i, h⟩).category = some cid) := by simpa using hc
      rw [if_neg hc, if_neg hc2]
      exact ⟨rfl, rfl, rfl, rfl, rfl, rfl, rfl, rfl, rfl, rfl, rfl, rfl, rfl, rfl, rfl⟩

/-- A concrete category, used only as a witness input. -/
def webCategory : ProjectCategory :=
  { id := 1, name := "Web", description := "", color := "#3B82F6" }

/-- A concrete project referencing `webCategory`, used only as a witness
input. -/
def webProject : Project :=
  { id := 1, title := "T", description := "D", detailed_description := "",
    github_url := none, demo_url := none, featured_image := none,
    category := some 1, technologies := [], status := "completed",
    is_featured := true, display_order := 0,
    start_date := none, end_date := none, created_at := 0 }

theorem category_delete_sets_null_witness :
    ((deleteProjectCategory [webCategory] [webProject] 1).2.get
      ⟨0, by decide⟩).category = none := by
  have h2 := (category_delete_sets_null [webCategory] [webProject] 1 0
    (by decide)).2 (by decide)
  simpa [webProject] using h2.1

/-- Django's `Paginator.num_pages` with `orphans=0` and
`allow_empty_first_page=True`: `ceil(max(1, count) / per_page)`. -/
def num_pages (count per_page : Nat) : Nat :=
  (max 1 count + per_page - 1) / per_page

/-- The two exceptions `Paginator.validate_number` can raise and the views
catch: `PageNotAnInteger` and `EmptyPage`. -/
inductive PageError where
  | not_an_integer
  | empty_page
deriving DecidableEq

/-- `Paginator.validate_number`: the page token is `none` when `int(page)`
fails (a non-integer token, raising `PageNotAnInteger`) and `some n` for an
integer token; `n < 1` or `n > num_pages` raises `EmptyPage`, except that
page 1 is always accepted when empty first pages are allowed. -/
def validate_number (np : Nat) (tok : Option Int) : Except PageError Nat :=
  match tok with
  | none => .error .not_an_integer
  | some n =>
    if n < 1 then .error .empty_page
    else if (np : Int) < n then
      (if n = 1 then .ok 1 else .error .empty_page)
    else .ok n.toNat

/-- One page of results: the validated page number and
`object_list[(number-1)*per : number*per]`. -/
structure PageObj (α : Type) where
  number : Nat
  object_list : List α
deriving DecidableEq

/-- `Paginator.page(tok)` over the full result list. -/
def paginatorPage (items : List α) (per : Nat) (tok : Option Int) :
    Except PageError (PageObj α) :=
  match validate_number (num_pages items.length per) tok with
  | .ok n => .ok { number := n, object_list := (items.drop ((n - 1) * per)).take per }
  | .error e => .error e

/-- The `try/except` around `paginator.page(page)` shared by `skills_api`
and `projects_api`: `PageNotAnInteger` retries with page 1, `EmptyPage`
retries with the last page. -/
def viewPage (items : List α) (per : Nat) (tok : Option Int) :
    Except PageError (PageObj α) :=
  match paginatorPage items per tok with
  | .ok pg => .ok pg
  | .error .not_an_integer => paginatorPage items per (some 1)
  | .error .empty_page => paginatorPage items per (some (num_pages items.length per))

/-- The pagination block serialized by both APIs; `Page.has_next` is
`number < num_pages` and `Page.has_previous` is `number > 1`. -/
structure PaginationMeta where
  page : Nat
  total_pages : Nat
  total_items : Nat
  has_next : Bool
  has_previous : Bool
deriving DecidableEq

/-- The paginated JSON payload both APIs build from a result list. -/
def paginatedResponse (items : List α) (per : Nat) (tok : Option Int) :
    Except PageError (List α × PaginationMeta) :=
  match viewPage items per tok with
  | .ok pg => .ok (pg.object_list,
      { page := pg.number,
        total_pages := num_pages items.length per,
        total_items := items.length,
        has_next := decide (pg.number < num_pages items.length per),
        has_previous := decide (1 < pg.number) })
  | .error e => .error e

/-- The `skills_api` queryset: featured skills ordered by
`(display_order, name)`, filtered by exact `category` when the request
carried a truthy (non-empty) `category` parameter. -/
def skillsQueryset (db : List Skill) (cat : Option String) : List Skill :=
  let base := List.insertionSort skillLE (db.filter (fun s => s.is_featured))
  match cat with
  | some c => if c != "" then base.filter (fun s => s.category == c) else base
  | none => base

/-- Ordering used by project queries:
`order_by('display_order', '-created_at')`. -/
def projectLE (a b : Project) : Prop :=
  a.display_order < b.display_order
  ∨ (a.display_order = b.display_order ∧ b.created_at ≤ a.created_at)

instance : DecidableRel projectLE := fun a b => by
  unfold projectLE
  exact inferInstance

/-- Case-insensitive substring test (`icontains`). -/
def icontains (hay needle : String) : Bool :=
  decide ((needle.toLower).data <:+: (hay.toLower).data)

/-- The `projects_api` queryset: featured projects ordered by
`(display_order, -created_at)`; a truthy `category` parameter filters by
case-insensitive substring match on the resolved category's name (rows with
no category never match); a truthy `status` parameter filters by exact
status. -/
def projectsQueryset (cats : List ProjectCategory) (db : List Project)
    (cat st : Option String) : List Project :=
  let base := List.insertionSort projectLE (db.filter (fun p => p.is_featured))
  let base2 :=
    match cat with
    | some c =>
      if c != "" then
        base.filter (fun p =>
          match p.category.bind
              (fun cid => (cats.find? (fun k => k.id == cid)).map (fun k => k.name)) with
          | some nm => icontains nm c
          | none => false)
      else base
    | none => base
  match st with
  | some s => if s != "" then base2.filter (fun p => p.status == s) else base2
  | none => base2

/-- `skills_api`: paginated featured skills. -/
def skills_api (db : List Skill) (per : Nat) (tok : Option Int)
    (cat : Option String) : Except PageError (List Skill × PaginationMeta) :=
  paginatedResponse (skillsQueryset db cat) per tok

/-- `projects_api`: paginated featured projects. -/
def projects_api (cats : List ProjectCategory) (db : List Project) (per : Nat)
    (tok : Option Int) (cat st : Option String) :
    Except PageError (List Project × PaginationMeta) :=
  paginatedResponse (projectsQueryset cats db cat st) per tok

theorem num_pages_pos (count per : Nat) (h : 1 ≤ per) : 1 ≤ num_pages count per := by
  unfold num_pages
  rw [Nat.one_le_div_iff (by omega)]
  omega

theorem validate_number_one (np : Nat) (h : 1 ≤ np) :
    validate_number np (some 1) = .ok 1 := by
  simp only [validate_number]
  rw [if_neg (by omega), if_neg (by omega)]
  rfl

theorem validate_number_last (np : Nat) (h : 1 ≤ np) :
    validate_number np (some (np : Int)) = .ok np := by
  simp only [validate_number]
  rw [if_neg (by omega), if_neg (by omega)]
  simp

theorem paginatorPage_one (items : List α) (per : Nat)
    (h : 1 ≤ num_pages items.length per) :
    paginatorPage items per (some 1)
      = .ok ⟨1, (items.drop ((1 - 1) * per)).take per⟩ := by
  simp only [paginatorPage]
  rw [validate_number_one _ h]

theorem paginatorPage_last (items : List α) (per : Nat)
    (h : 1 ≤ num_pages items.length per) :
    paginatorPage items per (some (num_pages items.length per : Int))
      = .ok ⟨num_pages items.length per,
          (items.drop ((num_pages items.length per - 1) * per)).take per⟩ := by
  simp only [paginatorPage]
  rw [validate_number_last _ h]

theorem viewPage_ok (items : List α) (per : Nat) (tok : Option Int) (h : 1 ≤ per) :
    ∃ pg, viewPage items per tok = .ok pg
      ∧ 1 ≤ pg.number ∧ pg.number ≤ num_pages items.length per
      ∧ (tok = none → pg.number = 1)
      ∧ (∀ n : Int, tok = some n → (num_pages items.length per : Int) < n →
          pg.number = num_pages items.length per) := by
  have hnp := num_pages_pos items.length per h
  cases tok with
  | none =>
    have h0 : paginatorPage items per none = .error .not_an_integer := rfl
    refine ⟨⟨1, (items.drop ((1 - 1) * per)).take per⟩, ?_, le_refl 1, hnp,
      fun _ => rfl, ?_⟩
    · simp only [viewPage, h0]
      exact paginatorPage_one items per hnp
    · intro n hn
      exact absurd hn (by simp)
  | some n =>
    by_cases h1 : n < 1
    · have h0 : paginatorPage items per (some n) = .error .empty_page := by
        simp only [paginatorPage, validate_number]
        rw [if_pos h1]
      refine ⟨⟨num_pages items.length per,
          (items.drop ((num_pages items.length per - 1) * per)).take per⟩,
        ?_, hnp, le_refl _, by simp, fun m hm hgt => rfl⟩
      simp only [viewPage, h0]
      exact paginatorPage_last items per hnp
    · by_cases h2 : (num_pages items.length per : Int) < n
      · have hne1 : ¬(n = 1) := by omega
        have h0 : paginatorPage items per (some n) = .error .empty_page := by
          simp only [paginatorPage, validate_number]
          rw [if_neg h1, if_pos h2, if_neg hne1]
        refine ⟨⟨num_pages items.length per,
            (items.drop ((num_pages items.length per - 1) * per)).take per⟩,
          ?_, hnp, le_refl _, by simp, fun m hm hgt => rfl⟩
        simp only [viewPage, h0]
        exact paginatorPage_last items per hnp
      · have h0 : paginatorPage items per (some n)
            = .ok ⟨n.toNat, (items.drop ((n.toNat - 1) * per)).take per⟩ := by
          simp only [paginatorPage, validate_number]
          rw [if_neg h1, if_neg h2]
        refine ⟨⟨n.toNat, (items.drop ((n.toNat - 1) * per)).take per⟩,
          ?_, ?_, ?_, by simp, ?_⟩
        · simp only [viewPage, h0]
        · show 1 ≤ n.toNat
          omega
        · show n.toNat ≤ num_pages items.length per
          omega
        · intro m hm hgt
          exfalso
          have hnm : n = m := by simpa using hm
          omega

theorem paginatedResponse_spec (items : List α) (per : Nat) (tok : Option Int)
    (h : 1 ≤ per) :
    ∃ r, paginatedResponse items per tok = .ok r
      ∧ 1 ≤ r.2.page ∧ r.2.page ≤ r.2.total_pages
      ∧ (tok = none → r.2.page = 1)
      ∧ (∀ n : Int, tok = some n → (r.2.total_pages : Int) < n →
          r.2.page = r.2.total_pages)
      ∧ r.2.total_pages = num_pages items.length per
      ∧ r.2.total_items = items.length
      ∧ r.2.has_next = decide (r.2.page < r.2.total_pages)
      ∧ r.2.has_previous = decide (1 < r.2.page) := by
  obtain ⟨pg, hok, h1, h2, h3, h4⟩ := viewPage_ok items per tok h
  refine ⟨(pg.object_list,
      { page := pg.number,
        total_pages := num_pages items.length per,
        total_items := items.length,
        has_next := decide (pg.number < num_pages items.length per),
        has_previous := decide (1 < pg.number) }),
    ?_, h1, h2, h3, ?_, rfl, rfl, rfl, rfl⟩
  · simp only [paginatedResponse, hok]
  · intro n hn hgt
    exact h4 n hn hgt

/-- **C4.** For every page token, the paginated skills and projects listings
never error: a non-integer token yields page 1, an integer beyond the last
valid page yields the last valid page, and the pagination metadata
(`total_pages`, `total_items`, `has_next`, `has_previous`) is consistent
with the clamped page. -/
theorem pagination_clamps_and_never_errors
    (skills : List Skill) (cats : List ProjectCategory) (projects : List Project)
    (per : Nat) (tok : Option Int) (c st : Option String) (h : 1 ≤ per) :
    (∃ r, skills_api skills per tok c = .ok r
      ∧ 1 ≤ r.2.page ∧ r.2.page ≤ r.2.total_pages
      ∧ (tok = none → r.2.page = 1)
      ∧ (∀ n : Int, tok = some n → (r.2.total_pages : Int) < n →
          r.2.page = r.2.total_pages)
      ∧ r.2.total_pages = num_pages (skillsQueryset skills c).length per
      ∧ r.2.total_items = (skillsQueryset skills c).length
      ∧ r.2.has_next = decide (r.2.page < r.2.total_pages)
      ∧ r.2.has_previous = decide (1 < r.2.page))
    ∧ (∃ r, projects_api cats projects per tok c st = .ok r
      ∧ 1 ≤ r.2.page ∧ r.2.page ≤ r.2.total_pages
      ∧ (tok = none → r.2.page = 1)
      ∧ (∀ n : Int, tok = some n → (r.2.total_pages : Int) < n →
          r.2.page = r.2.total_pages)
      ∧ r.2.total_pages = num_pages (projectsQueryset cats projects c st).length per
      ∧ r.2.total_items = (projectsQueryset cats projects c st).length
      ∧ r.2.has_next = decide (r.2.page < r.2.total_pages)
      ∧ r.2.has_previous = decide (1 < r.2.page)) :=
  ⟨paginatedResponse_spec (skillsQueryset skills c) per tok h,
   paginatedResponse_spec (projectsQueryset cats projects c st) per tok h⟩

theorem pagination_clamps_and_never_errors_witness :
    ∃ r, skills_api [] 6 (some 9999) none = .ok r ∧ r.2.page = r.2.total_pages := by
  obtain ⟨r, hok, h1, h2, h3, h4, htp, hti, hn, hp⟩ :=
    (pagination_clamps_and_never_errors [] [] [] 6 (some 9999) none none
      (by decide)).1
  refine ⟨r, hok, ?_⟩
  have hlt : (r.2.total_pages : Int) < 9999 := by
    rw [htp]
    decide
  exact h4 9999 rfl hlt

end Portfolio
